import Mathlib

/-!
Shallow embedding of the real-time messaging core of the tribe_backend
repository (`src/app/api/v1/websocket.py`): the in-memory
`ConnectionManager` (connection registry, conversation subscriptions,
typing tracker, broadcast fan-out) and the `websocket_endpoint`
session loop.

Modelling conventions:
* `UUID` values and WebSocket connection handles are modelled as `Nat`.
* Python `dict`s (insertion-ordered, unique keys) are modelled as
  association lists `List (Nat × α)`; Python `set`s of UUIDs as
  duplicate-free `List Nat`.
* The JSON dicts sent on the wire are modelled by the `WireEvent`
  structure; the nested `data` dict keeps its string keys so that the
  exact wire field names are part of the model.
* `await websocket.send_text(...)` is a transport oracle
  `Transport := Nat → WireEvent → Except Unit Unit`; an `.error` result
  models the send raising an exception.
* Python exceptions that matter to the claims are modelled explicitly:
  `json.loads` failures, `dict`-mutation-during-iteration
  (`RuntimeError`), and the function-local shadowing of the imported
  `status` module inside `websocket_endpoint` (the assignment
  `status = message.get("status", "online")` in the presence branch
  makes `status` a local name for the whole function, so reading
  `status.WS_1008_POLICY_VIOLATION` / `status.WS_1011_INTERNAL_ERROR`
  before a presence event raises `UnboundLocalError`, and after one it
  raises `AttributeError` on a `str`).
-/

namespace TribeWS

/-! ## Python dict / set primitives -/

/-- Lookup in an insertion-ordered dict (`d[k]` / `d.get(k)`). -/
def dlookup (k : Nat) : List (Nat × α) → Option α
  | [] => none
  | (k1, v) :: rest => if k1 = k then some v else dlookup k rest

/-- Membership test `k in d`. -/
def dmem (k : Nat) (l : List (Nat × α)) : Bool :=
  (dlookup k l).isSome

/-- Assignment `d[k] = v`: overwrite in place if present, else append. -/
def dinsert (k : Nat) (v : α) : List (Nat × α) → List (Nat × α)
  | [] => [(k, v)]
  | (k1, v1) :: rest =>
    if k1 = k then (k, v) :: rest else (k1, v1) :: dinsert k v rest

/-- Deletion `del d[k]` (no-op when the key is absent). -/
def ddel (k : Nat) : List (Nat × α) → List (Nat × α)
  | [] => []
  | (k1, v) :: rest => if k1 = k then ddel k rest else (k1, v) :: ddel k rest

/-- In-place update of the value stored at key `k`. -/
def dmodify (k : Nat) (f : α → α) : List (Nat × α) → List (Nat × α)
  | [] => []
  | (k1, v) :: rest =>
    if k1 = k then (k1, f v) :: dmodify k f rest else (k1, v) :: dmodify k f rest

/-- Python `set.add`: no-op when already present. -/
def sadd (x : Nat) (s : List Nat) : List Nat :=
  if x ∈ s then s else s ++ [x]

/-- Python `set.discard`: remove if present, no-op otherwise. -/
def serase (x : Nat) (s : List Nat) : List Nat :=
  s.erase x

/-! ## Wire events (the JSON dicts this module sends) -/

/-- A JSON scalar occurring in a `data` sub-dict. -/
inductive JVal where
  | str (v : String)
  | boolean (v : Bool)
deriving DecidableEq, Repr

/-- An outbound server event envelope: the dict literals built in
`websocket.py` (`connected`, `subscribed`, `typing`, `message.new`,
`pong`).  Absent keys are `none`. -/
structure WireEvent where
  event : String
  message : Option String := none
  conversation_id : Option String := none
  data : Option (List (String × JVal)) := none
deriving DecidableEq, Repr

/-- Lines 36-39: the `connected` confirmation payload. -/
def connectedEvent : WireEvent :=
  { event := "connected", message := some "WebSocket connection established" }

/-- Lines 170-173: the `subscribed` reply (conversation id echoed in its
canonical string form). -/
def subscribedEvent (cid : Nat) : WireEvent :=
  { event := "subscribed", conversation_id := some (toString cid) }

/-- Lines 101-109: the `typing` broadcast payload.  Note the `data` keys
are exactly `user_id`, `user_name`, `is_typing`. -/
def typingEvent (cid u : Nat) (user_name : String) (is_typing : Bool) : WireEvent :=
  { event := "typing"
    conversation_id := some (toString cid)
    data := some
      [ ("user_id", JVal.str (toString u))
      , ("user_name", JVal.str user_name)
      , ("is_typing", JVal.boolean is_typing) ] }

/-- Lines 211-213: the heartbeat reply. -/
def pongEvent : WireEvent := { event := "pong" }

/-- Lines 230-234: the `message.new` broadcast payload. -/
def messageNewEvent (cid : Nat) (payload : List (String × JVal)) : WireEvent :=
  { event := "message.new"
    conversation_id := some (toString cid)
    data := some payload }

/-- The transport oracle: what `await websocket.send_text(...)` does for
a given handle and payload (`.error` models a raised exception). -/
def Transport : Type := Nat → WireEvent → Except Unit Unit

/-! ## ConnectionManager state and operations -/

/-- The three shared dicts owned by `ConnectionManager` (lines 23-29). -/
structure ManagerState where
  active_connections : List (Nat × Nat)
  conversation_subscriptions : List (Nat × List Nat)
  typing_users : List (Nat × List Nat)
deriving DecidableEq, Repr

/-- The empty manager created at import time (line 112). -/
def initialManager : ManagerState :=
  { active_connections := []
    conversation_subscriptions := []
    typing_users := [] }

/-- Lines 56-61: `send_personal_message` wraps the transport send in
`try ... except Exception: pass`, so it returns successfully whatever
the transport does. -/
def send_personal_message (tr : Transport) (message : WireEvent) (ws : Nat) :
    Except Unit Unit :=
  match tr ws message with
  | .ok _ => .ok ()
  | .error _ => .ok ()

/-- Lines 63-66: `send_to_user` resolves the registry entry and, when
present, delegates to `send_personal_message`.  The returned list
records the transport-level attempts `(handle, payload)` actually made. -/
def send_to_user (tr : Transport) (ac : List (Nat × Nat)) (u : Nat)
    (message : WireEvent) : Except Unit (List (Nat × WireEvent)) :=
  match dlookup u ac with
  | some ws => (send_personal_message tr message ws).map (fun _ => [(ws, message)])
  | none => .ok []

/-- Lines 31-39: `connect` registers (overwriting) the handle and sends
the `connected` confirmation to it. -/
def connect (tr : Transport) (ws u : Nat) (st : ManagerState) :
    Except Unit (ManagerState × List (Nat × WireEvent)) :=
  let st1 := { st with active_connections := dinsert u ws st.active_connections }
  (send_personal_message tr connectedEvent ws).map (fun _ => (st1, [(ws, connectedEvent)]))

/-- Lines 46-49 and 51-54: iterate over a dict of member sets, discard
`u` from each set, and `del` the entry when the set empties.  CPython
raises `RuntimeError: dictionary changed size during iteration` at the
very next step of the iterator after any such `del`, so the remaining
entries are left untouched; the returned flag records whether that
happened. -/
def pruneUser (u : Nat) : List (Nat × List Nat) → List (Nat × List Nat) × Bool
  | [] => ([], false)
  | (c, s) :: rest =>
    let s1 := serase u s
    if s1 = [] then (rest, true)
    else
      let r := pruneUser u rest
      ((c, s1) :: r.1, r.2)

/-- Lines 41-54: `disconnect` removes the registry entry, then runs the
two pruning loops; a `RuntimeError` in the first loop (flag `true`)
aborts before the typing loop runs, and one in the second loop leaves
its remaining entries untouched. -/
def disconnect (u : Nat) (st : ManagerState) : ManagerState × Bool :=
  let ac := if dmem u st.active_connections then ddel u st.active_connections
            else st.active_connections
  let subsR := pruneUser u st.conversation_subscriptions
  if subsR.2 then
    ({ active_connections := ac
       conversation_subscriptions := subsR.1
       typing_users := st.typing_users }, true)
  else
    let typR := pruneUser u st.typing_users
    ({ active_connections := ac
       conversation_subscriptions := subsR.1
       typing_users := typR.1 }, typR.2)

/-- Lines 68-72: `subscribe_to_conversation` creates the entry when
absent, then adds the user. -/
def subscribe_to_conversation (cid u : Nat) (st : ManagerState) : ManagerState :=
  let subs0 := if dmem cid st.conversation_subscriptions then st.conversation_subscriptions
               else dinsert cid [] st.conversation_subscriptions
  { st with conversation_subscriptions := dmodify cid (sadd u) subs0 }

/-- Lines 74-79: `unsubscribe_from_conversation` discards the user and
deletes the entry when its set has emptied. -/
def unsubscribe_from_conversation (cid u : Nat) (st : ManagerState) : ManagerState :=
  if dmem cid st.conversation_subscriptions then
    let subs1 := dmodify cid (serase u) st.conversation_subscriptions
    let subs2 := if dlookup cid subs1 = some [] then ddel cid subs1 else subs1
    { st with conversation_subscriptions := subs2 }
  else st

/-- The member set of a conversation as read by `broadcast_to_conversation`
(empty when the conversation has no entry). -/
def subsMembers (st : ManagerState) (cid : Nat) : List Nat :=
  (dlookup cid st.conversation_subscriptions).getD []

/-- The loop body of lines 84-86: for each member other than
`exclude_user_id`, call `send_to_user`; an exception from a send would
abort the remaining iterations (the `.error` branch), and the result
records the `send_to_user` invocations `(user_id, payload)` made. -/
def broadcastLoop (tr : Transport) (ac : List (Nat × Nat)) (message : WireEvent)
    (excl : Option Nat) : List Nat → Except Unit (List (Nat × WireEvent))
  | [] => .ok []
  | m :: rest =>
    if some m = excl then broadcastLoop tr ac message excl rest
    else
      match send_to_user tr ac m message with
      | .error e => .error e
      | .ok _ =>
        match broadcastLoop tr ac message excl rest with
        | .error e => .error e
        | .ok r => .ok ((m, message) :: r)

/-- Lines 81-86: `broadcast_to_conversation` iterates the conversation's
member set (no-op when the conversation has no entry). -/
def broadcast_to_conversation (tr : Transport) (st : ManagerState) (cid : Nat)
    (message : WireEvent) (excl : Option Nat) : Except Unit (List (Nat × WireEvent)) :=
  if dmem cid st.conversation_subscriptions then
    broadcastLoop tr st.active_connections message excl (subsMembers st cid)
  else .ok []

/-- Lines 90-98: the typing-tracker mutation performed by
`handle_typing` — ensure the entry exists, then add on `is_typing=true`
or discard (pruning an emptied entry) on `is_typing=false`. -/
def typingUpdate (cid u : Nat) (is_typing : Bool) (typ : List (Nat × List Nat)) :
    List (Nat × List Nat) :=
  let t1 := if dmem cid typ then typ else dinsert cid [] typ
  if is_typing then dmodify cid (sadd u) t1
  else
    let t2 := dmodify cid (serase u) t1
    if dlookup cid t2 = some [] then ddel cid t2 else t2

/-- Lines 88-109: `handle_typing` updates the typing tracker and then
broadcasts the `typing` event to the conversation's subscribers,
excluding the acting user. -/
def handle_typing (tr : Transport) (st : ManagerState) (cid u : Nat)
    (user_name : String) (is_typing : Bool) :
    Except Unit (ManagerState × List (Nat × WireEvent)) :=
  let st1 := { st with typing_users := typingUpdate cid u is_typing st.typing_users }
  (broadcast_to_conversation tr st1 cid (typingEvent cid u user_name is_typing)
      (some u)).map (fun att => (st1, att))

/-- Lines 228-234: `broadcast_new_message` wraps
`broadcast_to_conversation` with a `message.new` envelope. -/
def broadcast_new_message (tr : Transport) (st : ManagerState) (cid : Nat)
    (payload : List (String × JVal)) (excl : Option Nat) :
    Except Unit (List (Nat × WireEvent)) :=
  broadcast_to_conversation tr st cid (messageNewEvent cid payload) excl

/-! ## The websocket_endpoint session loop -/

/-- The Python exceptions that reach the endpoint's handlers in the
modelled fragment. -/
inductive PyErr where
  | jsonDecode
  | attrError
  | runtimeDictMutation
  | unboundLocal
deriving DecidableEq, Repr

/-- Reading `status.WS_1008_POLICY_VIOLATION` or
`status.WS_1011_INTERNAL_ERROR` inside `websocket_endpoint`.  Because
of the assignment `status = message.get("status", "online")` in the
presence branch (line 205), `status` is a function-local name in the
whole function body: before any presence event it is unassigned
(`UnboundLocalError`), and after one it is a `str`, which has no
`WS_*` attribute (`AttributeError`).  The `.ok` branch — what the code
intends, returning the numeric close code — is unreachable. -/
def readStatusAttr (statusLocal : Option String) (_intended : Nat) : Except PyErr Nat :=
  match statusLocal with
  | none => .error .unboundLocal
  | some _ => .error .attrError

/-- The function-local state of one `websocket_endpoint` call: the
shared manager plus the local `status` variable. -/
structure EPLocals where
  mgr : ManagerState
  statusLocal : Option String := none
deriving DecidableEq, Repr

/-- The external persistence collaborator as seen by the `subscribe`
branch (lines 156-167): a conversation resolves to `none` or to its
participant rows `(user_id, left_at is None)`. -/
structure DB where
  conv : Nat → Option (List (Nat × Bool))

/-- One inbound client frame, classified by what `json.loads` and the
field reads make of it.  `cid` is the outcome of reading and parsing
`conversation_id`: `none` = absent or falsy, `some none` = a truthy
string rejected by `UUID(...)` with `ValueError`, `some (some c)` = a
string parsing to conversation `c`. -/
inductive Incoming where
  | notJson
  | jsonNonObject
  | obj (event : Option String) (cid : Option (Option Nat)) (is_typing : Bool)
        (pstatus : Option String)
deriving DecidableEq, Repr

/-- One iteration of the `while True` receive loop (lines 144-213) for
an authenticated user `u` with display name `uname` on handle `ws`.
Returns the updated locals, the `send_personal_message` payloads sent
to the connection's own handle, the typing-broadcast `send_to_user`
attempts (when a typing event was dispatched), and the exception that
escaped the loop body, if any. -/
def loopStep (tr : Transport) (db : DB) (u : Nat) (uname : String) (ws : Nat)
    (loc : EPLocals) (inc : Incoming) :
    EPLocals × List (Nat × WireEvent) × List (Nat × WireEvent) × Option PyErr :=
  match inc with
  | .notJson => (loc, [], [], some .jsonDecode)
  | .jsonNonObject => (loc, [], [], some .attrError)
  | .obj ev cid t ps =>
    match ev with
    | some "subscribe" =>
      match cid with
      | none => (loc, [], [], none)
      | some none => (loc, [], [], none)
      | some (some c) =>
        match db.conv c with
        | none => (loc, [], [], none)
        | some parts =>
          if parts.any (fun p => p.1 = u && p.2) then
            ({ loc with mgr := subscribe_to_conversation c u loc.mgr },
              [(ws, subscribedEvent c)], [], none)
          else (loc, [], [], none)
    | some "unsubscribe" =>
      match cid with
      | none => (loc, [], [], none)
      | some none => (loc, [], [], none)
      | some (some c) =>
        ({ loc with mgr := unsubscribe_from_conversation c u loc.mgr }, [], [], none)
    | some "typing" =>
      match cid with
      | none => (loc, [], [], none)
      | some none => (loc, [], [], none)
      | some (some c) =>
        match handle_typing tr loc.mgr c u uname t with
        | .ok r => ({ loc with mgr := r.1 }, [], r.2, none)
        | .error _ => (loc, [], [], none)
    | some "presence" =>
      ({ loc with statusLocal := some (ps.getD "online") }, [], [], none)
    | some "ping" => (loc, [(ws, pongEvent)], [], none)
    | some _ => (loc, [], [], none)
    | none => (loc, [], [], none)

/-- The observable outcome of feeding one frame to the session loop. -/
inductive StepOutcome where
  | continueLoop (loc : EPLocals) (ownSends : List (Nat × WireEvent))
      (broadcastSends : List (Nat × WireEvent))
  | sessionEnded (loc : EPLocals) (closedWith : Option Nat)
  | crashed (loc : EPLocals) (closedWith : Option Nat) (e : PyErr)
deriving DecidableEq, Repr

/-- One frame processed by `websocket_endpoint`, including the
`except Exception` handler (lines 220-225): on an escaped exception the
user is truthy, so `manager.disconnect(user.id)` runs (and may itself
raise `RuntimeError`, skipping the rest of the handler), then
`websocket.close(code=status.WS_1011_INTERNAL_ERROR)` reads the
shadowed local `status` and raises, so the handler never completes a
clean 1011 close. -/
def processIncoming (tr : Transport) (db : DB) (u : Nat) (uname : String)
    (ws : Nat) (loc : EPLocals) (inc : Incoming) : StepOutcome :=
  match loopStep tr db u uname ws loc inc with
  | (loc1, own, bcast, none) => .continueLoop loc1 own bcast
  | (loc1, _, _, some _) =>
    let r := disconnect u loc1.mgr
    let loc2 := { loc1 with mgr := r.1 }
    if r.2 then .crashed loc2 none .runtimeDictMutation
    else
      match readStatusAttr loc2.statusLocal 1011 with
      | .ok code => .sessionEnded loc2 (some code)
      | .error e2 => .crashed loc2 none e2

/-- The observable outcome of the pre-loop part of
`websocket_endpoint` (lines 128-141). -/
inductive StartOutcome where
  | connectedOutcome (mgr : ManagerState) (sent : List (Nat × WireEvent))
  | rejected (mgr : ManagerState) (closedWith : Nat)
  | crashed (mgr : ManagerState) (closedWith : Option Nat) (e : PyErr)
deriving DecidableEq, Repr

/-- Lines 128-141 of `websocket_endpoint`: authenticate, and on failure
close with `status.WS_1008_POLICY_VIOLATION` — but the read of the
shadowed local `status` raises, the exception is caught by the
`except Exception` handler (line 220) where `user` is still falsy (no
disconnect), and the close with `status.WS_1011_INTERNAL_ERROR` there
raises again and escapes.  `auth` is the result of the external
`get_current_user_from_token` collaborator (`none` = absent/invalid
token). -/
def endpointStart (tr : Transport) (auth : Option Nat) (ws : Nat)
    (st : ManagerState) : StartOutcome :=
  match auth with
  | none =>
    match readStatusAttr none 1008 with
    | .ok code => .rejected st code
    | .error _ =>
      match readStatusAttr none 1011 with
      | .ok code2 => .crashed st (some code2) .unboundLocal
      | .error e2 => .crashed st none e2
  | some u =>
    match connect tr ws u st with
    | .ok r => .connectedOutcome r.1 r.2
    | .error _ => .crashed st none .attrError

/-! ## Invariants -/

/-- No conversation entry of either set-valued dict maps to an empty
set, and neither dict has duplicate keys (as Python dicts cannot). -/
def goodState (st : ManagerState) : Prop :=
  (∀ p ∈ st.conversation_subscriptions, p.2 ≠ []) ∧
  (∀ p ∈ st.typing_users, p.2 ≠ []) ∧
  (st.conversation_subscriptions.map Prod.fst).Nodup ∧
  (st.typing_users.map Prod.fst).Nodup

instance (st : ManagerState) : Decidable (goodState st) := by
  unfold goodState; infer_instance

/-- Every stored member set is duplicate-free (automatic for Python
sets; needed here because sets are modelled as lists). -/
def setsNodup (st : ManagerState) : Prop :=
  (∀ p ∈ st.conversation_subscriptions, p.2.Nodup) ∧
  (∀ p ∈ st.typing_users, p.2.Nodup)

instance (st : ManagerState) : Decidable (setsNodup st) := by
  unfold setsNodup; infer_instance

/-- Sanity condition on one conversation's slot in a set-valued dict:
at most one entry carries the key, and its set is duplicate-free. -/
def cidOk (cid : Nat) (t : List (Nat × List Nat)) : Prop :=
  (t.map Prod.fst).count cid ≤ 1 ∧ ((dlookup cid t).getD []).Nodup

instance (cid : Nat) (t : List (Nat × List Nat)) : Decidable (cidOk cid t) := by
  unfold cidOk; infer_instance

/-! ## Operation sequences (for the algebraic claims) -/

/-- A call on a fixed `(conversation_id, user_id)` pair. -/
inductive SubOp where
  | sub
  | unsub
deriving DecidableEq, Repr

/-- Apply one subscription call. -/
def applySubOp (cid u : Nat) (st : ManagerState) : SubOp → ManagerState
  | .sub => subscribe_to_conversation cid u st
  | .unsub => unsubscribe_from_conversation cid u st

/-- Apply a finite sequence of subscription calls, first element first. -/
def applySubOps (cid u : Nat) (st : ManagerState) (ops : List SubOp) : ManagerState :=
  ops.foldl (applySubOp cid u) st

/-- Fold a sequence of typing events `(user, is_typing)` for one
conversation through the typing-tracker mutation of `handle_typing`. -/
def applyTypingEvents (cid : Nat) (t : List (Nat × List Nat))
    (evs : List (Nat × Bool)) : List (Nat × List Nat) :=
  evs.foldl (fun acc e => typingUpdate cid e.1 e.2 acc) t

/-- The `is_typing` flag of the last event a given user sent in a
sequence of typing events (`none` when the user sent none). -/
def lastTyping (u : Nat) (evs : List (Nat × Bool)) : Option Bool :=
  ((evs.filter (fun e => e.1 == u)).getLast?).map Prod.snd

/-- The `(user_id, payload)` pairs `broadcastLoop` hands to
`send_to_user`: every listed member except the excluded one, in order. -/
def broadcastTargets (m : WireEvent) (excl : Option Nat) : List Nat → List (Nat × WireEvent)
  | [] => []
  | x :: rest =>
    if some x = excl then broadcastTargets m excl rest
    else (x, m) :: broadcastTargets m excl rest

/-- The typing set currently recorded for a conversation (empty when
the entry is absent). -/
def tset (cid : Nat) (t : List (Nat × List Nat)) : List Nat :=
  (dlookup cid t).getD []

/-! ## Concrete fixtures used by witnesses and counterexamples -/

/-- A transport on which every send succeeds. -/
def tr0 : Transport := fun _ _ => .ok ()

/-- A transport on which every send raises. -/
def trFail : Transport := fun _ _ => .error ()

/-- A persistence collaborator with no conversations. -/
def db0 : DB := ⟨fun _ => none⟩

/-- User 7 is the sole subscriber of conversation 0, shares
conversation 1 with user 8, and is typing in conversation 1. -/
def stC1 : ManagerState :=
  { active_connections := [(7, 1)]
    conversation_subscriptions := [(0, [7]), (1, [7, 8])]
    typing_users := [(1, [7])] }

/-- User 5 is connected on handle 1 and shares conversation 2 with
user 7. -/
def locC2 : EPLocals :=
  { mgr := { active_connections := [(5, 1)]
             conversation_subscriptions := [(2, [5, 7])]
             typing_users := [] } }

/-- User 3 is connected on handle 9; users 2 and 3 subscribe to
conversation 1. -/
def stC7 : ManagerState :=
  { active_connections := [(3, 9)]
    conversation_subscriptions := [(1, [2, 3])]
    typing_users := [] }

/-! ## Dict / set toolkit lemmas -/

theorem dlookup_dinsert (k : Nat) (v : α) (l : List (Nat × α)) :
    dlookup k (dinsert k v l) = some v := by
  induction l with
  | nil => simp [dinsert, dlookup]
  | cons p rest ih =>
    obtain ⟨a, b⟩ := p
    by_cases h : a = k
    · simp [dinsert, h, dlookup]
    · simp [dinsert, h, dlookup, ih]

theorem dlookup_dinsert_ne (k1 k : Nat) (v : α) (l : List (Nat × α)) (h : k1 ≠ k) :
    dlookup k1 (dinsert k v l) = dlookup k1 l := by
  induction l with
  | nil => simp [dinsert, dlookup, Ne.symm h]
  | cons p rest ih =>
    obtain ⟨a, b⟩ := p
    by_cases hp : a = k
    · subst hp
      simp [dinsert, dlookup, Ne.symm h]
    · simp [dinsert, hp, dlookup, ih]

theorem dlookup_dmodify (k : Nat) (f : α → α) (l : List (Nat × α)) :
    dlookup k (dmodify k f l) = (dlookup k l).map f := by
  induction l with
  | nil => simp [dmodify, dlookup]
  | cons p rest ih =>
    obtain ⟨a, b⟩ := p
    by_cases h : a = k
    · subst h
      simp [dmodify, dlookup]
    · simp [dmodify, h, dlookup, ih]

theorem dlookup_dmodify_ne (k1 k : Nat) (f : α → α) (l : List (Nat × α)) (h : k1 ≠ k) :
    dlookup k1 (dmodify k f l) = dlookup k1 l := by
  induction l with
  | nil => simp [dmodify, dlookup]
  | cons p rest ih =>
    obtain ⟨a, b⟩ := p
    by_cases hp : a = k
    · subst hp
      simp [dmodify, dlookup, Ne.symm h, ih]
    · simp [dmodify, hp, dlookup, ih]

theorem dlookup_ddel (k : Nat) (l : List (Nat × α)) :
    dlookup k (ddel k l) = none := by
  induction l with
  | nil => simp [ddel, dlookup]
  | cons p rest ih =>
    obtain ⟨a, b⟩ := p
    by_cases h : a = k
    · subst h
      simpa [ddel] using ih
    · simpa [ddel, h, dlookup] using ih

theorem dlookup_ddel_ne (k1 k : Nat) (l : List (Nat × α)) (h : k1 ≠ k) :
    dlookup k1 (ddel k l) = dlookup k1 l := by
  induction l with
  | nil => simp [ddel, dlookup]
  | cons p rest ih =>
    obtain ⟨a, b⟩ := p
    by_cases hp : a = k
    · subst hp
      simpa [ddel, dlookup, Ne.symm h] using ih
    · simp [ddel, hp, dlookup, ih]

theorem dlookup_eq_none_iff (k : Nat) (l : List (Nat × α)) :
    dlookup k l = none ↔ ∀ p ∈ l, p.1 ≠ k := by
  induction l with
  | nil => simp [dlookup]
  | cons p rest ih =>
    obtain ⟨a, b⟩ := p
    by_cases h : a = k
    · simp [dlookup, h]
    · simp [dlookup, h, ih]

theorem dinsert_of_dlookup_none (k : Nat) (v : α) (l : List (Nat × α))
    (h : dlookup k l = none) : dinsert k v l = l ++ [(k, v)] := by
  induction l with
  | nil => simp [dinsert]
  | cons p rest ih =>
    obtain ⟨a, b⟩ := p
    by_cases hp : a = k
    · simp [dlookup, hp] at h
    · simp only [dlookup, hp, if_false] at h
      simp [dinsert, hp, ih h]

theorem dmodify_forall (k : Nat) (f : α → α) (l : List (Nat × α)) (P : α → Prop)
    (h1 : ∀ p ∈ l, p.1 ≠ k → P p.2) (h2 : ∀ p ∈ l, p.1 = k → P (f p.2)) :
    ∀ p ∈ dmodify k f l, P p.2 := by
  induction l with
  | nil => simp [dmodify]
  | cons q rest ih =>
    obtain ⟨a, b⟩ := q
    intro p hp
    by_cases h : a = k
    · subst h
      rcases List.mem_cons.mp (by simpa [dmodify] using hp) with rfl | hmem
      · exact h2 (a, b) (List.mem_cons_self _ _) rfl
      · exact ih (fun q hq => h1 q (List.mem_cons_of_mem _ hq))
          (fun q hq => h2 q (List.mem_cons_of_mem _ hq)) p hmem
    · rcases List.mem_cons.mp (by simpa [dmodify, h] using hp) with rfl | hmem
      · exact h1 (a, b) (List.mem_cons_self _ _) h
      · exact ih (fun q hq => h1 q (List.mem_cons_of_mem _ hq))
          (fun q hq => h2 q (List.mem_cons_of_mem _ hq)) p hmem

theorem dmodify_mem_ne (k : Nat) (f : α → α) (l : List (Nat × α)) (p : Nat × α)
    (hp : p ∈ dmodify k f l) (hne : p.1 ≠ k) : p ∈ l := by
  induction l with
  | nil => simp [dmodify] at hp
  | cons q rest ih =>
    obtain ⟨a, b⟩ := q
    by_cases h : a = k
    · subst h
      rcases List.mem_cons.mp (by simpa [dmodify] using hp) with rfl | hmem
      · exact absurd rfl hne
      · exact List.mem_cons_of_mem _ (ih hmem)
    · rcases List.mem_cons.mp (by simpa [dmodify, h] using hp) with rfl | hmem
      · exact List.mem_cons_self _ _
      · exact List.mem_cons_of_mem _ (ih hmem)

theorem dmodify_fst (k : Nat) (f : α → α) (l : List (Nat × α)) :
    (dmodify k f l).map Prod.fst = l.map Prod.fst := by
  induction l with
  | nil => rfl
  | cons p rest ih =>
    obtain ⟨a, b⟩ := p
    by_cases h : a = k
    · subst h
      simp [dmodify, ih]
    · simp [dmodify, h, ih]

theorem dinsert_fst_of_dmem (k : Nat) (v : α) (l : List (Nat × α))
    (h : dmem k l = true) : (dinsert k v l).map Prod.fst = l.map Prod.fst := by
  induction l with
  | nil => simp [dmem, dlookup] at h
  | cons p rest ih =>
    obtain ⟨a, b⟩ := p
    by_cases hp : a = k
    · simp [dinsert, hp]
    · simp only [dmem, dlookup, hp, if_false] at h
      simp [dinsert, hp, ih h]

theorem ddel_fst_sublist (k : Nat) (l : List (Nat × α)) :
    ((ddel k l).map Prod.fst).Sublist (l.map Prod.fst) := by
  induction l with
  | nil => simp [ddel]
  | cons p rest ih =>
    obtain ⟨a, b⟩ := p
    by_cases h : a = k
    · subst h
      simpa [ddel] using ih.cons a
    · simpa [ddel, h] using ih.cons₂ a

theorem mem_ddel (k : Nat) (l : List (Nat × α)) (p : Nat × α)
    (hp : p ∈ ddel k l) : p ∈ l := by
  induction l with
  | nil => simp [ddel] at hp
  | cons q rest ih =>
    obtain ⟨a, b⟩ := q
    by_cases h : a = k
    · subst h
      simp only [ddel, if_pos rfl] at hp
      exact List.mem_cons_of_mem _ (ih hp)
    · simp only [ddel, if_neg h, List.mem_cons] at hp
      rcases hp with rfl | hp
      · exact List.mem_cons_self _ _
      · exact List.mem_cons_of_mem _ (ih hp)

theorem dlookup_of_mem_nodup (l : List (Nat × α)) (p : Nat × α)
    (hn : (l.map Prod.fst).Nodup) (hp : p ∈ l) : dlookup p.1 l = some p.2 := by
  induction l with
  | nil => simp at hp
  | cons q rest ih =>
    rcases List.mem_cons.mp hp with h | hmem
    · subst h
      obtain ⟨a, b⟩ := p
      simp [dlookup]
    · have hq : q.1 ≠ p.1 := by
        intro he
        exact (List.nodup_cons.mp hn).1 (he ▸ List.mem_map_of_mem Prod.fst hmem)
      obtain ⟨a, b⟩ := q
      simp only [dlookup]
      rw [if_neg hq]
      exact ih (List.nodup_cons.mp hn).2 hmem

theorem sadd_ne_nil (x : Nat) (s : List Nat) : sadd x s ≠ [] := by
  by_cases h : x ∈ s
  · simpa [sadd, h] using List.ne_nil_of_mem h
  · simp [sadd, h]

theorem mem_sadd (x y : Nat) (s : List Nat) : y ∈ sadd x s ↔ y ∈ s ∨ y = x := by
  by_cases h : x ∈ s
  · simp only [sadd, h, if_true]
    constructor
    · exact Or.inl
    · rintro (hy | rfl)
      · exact hy
      · exact h
  · simp [sadd, h]

theorem sadd_nodup (x : Nat) (s : List Nat) (h : s.Nodup) : (sadd x s).Nodup := by
  by_cases hm : x ∈ s
  · simpa [sadd, hm] using h
  · simp only [sadd, hm, if_false]
    rw [List.nodup_append]
    exact ⟨h, List.nodup_singleton x, by simpa using hm⟩

theorem sadd_idem (x : Nat) (s : List Nat) : sadd x (sadd x s) = sadd x s := by
  by_cases hm : x ∈ s
  · simp [sadd, hm]
  · simp [sadd, hm]

theorem serase_nodup (x : Nat) (s : List Nat) (h : s.Nodup) : (serase x s).Nodup :=
  h.erase x

theorem mem_serase_ne (x y : Nat) (s : List Nat) (h : y ≠ x) :
    y ∈ serase x s ↔ y ∈ s :=
  List.mem_erase_of_ne h

theorem not_mem_serase (x : Nat) (s : List Nat) (h : s.Nodup) :
    x ∉ serase x s :=
  h.not_mem_erase

theorem serase_of_not_mem (x : Nat) (s : List Nat) (h : x ∉ s) :
    serase x s = s :=
  List.erase_of_not_mem h

/-! ## Characterization of the send / broadcast layer -/

theorem send_personal_message_ok (tr : Transport) (m : WireEvent) (ws : Nat) :
    send_personal_message tr m ws = .ok () := by
  unfold send_personal_message
  cases tr ws m <;> rfl

theorem send_to_user_eq (tr : Transport) (ac : List (Nat × Nat)) (u : Nat)
    (m : WireEvent) :
    send_to_user tr ac u m =
      .ok ((dlookup u ac).elim [] (fun ws => [(ws, m)])) := by
  unfold send_to_user
  cases h : dlookup u ac <;> simp [send_personal_message_ok, Except.map]

theorem connect_eq (tr : Transport) (ws u : Nat) (st : ManagerState) :
    connect tr ws u st =
      .ok ({ st with active_connections := dinsert u ws st.active_connections },
        [(ws, connectedEvent)]) := by
  unfold connect
  simp [send_personal_message_ok, Except.map]

theorem broadcastLoop_eq (tr : Transport) (ac : List (Nat × Nat)) (m : WireEvent)
    (excl : Option Nat) (l : List Nat) :
    broadcastLoop tr ac m excl l = .ok (broadcastTargets m excl l) := by
  induction l with
  | nil => rfl
  | cons x rest ih =>
    by_cases h : some x = excl
    · simp [broadcastLoop, broadcastTargets, h, ih]
    · simp [broadcastLoop, broadcastTargets, h, ih, send_to_user_eq]

theorem dmem_false_dlookup (k : Nat) (l : List (Nat × α)) (h : ¬ dmem k l = true) :
    dlookup k l = none := by
  unfold dmem at h
  cases hh : dlookup k l
  · rfl
  · simp [hh] at h

theorem broadcast_to_conversation_eq (tr : Transport) (st : ManagerState)
    (cid : Nat) (m : WireEvent) (excl : Option Nat) :
    broadcast_to_conversation tr st cid m excl =
      .ok (broadcastTargets m excl (subsMembers st cid)) := by
  unfold broadcast_to_conversation
  by_cases h : dmem cid st.conversation_subscriptions = true
  · simp [h, broadcastLoop_eq]
  · simp [h, subsMembers, dmem_false_dlookup _ _ h, broadcastTargets]

theorem mem_broadcastTargets (m : WireEvent) (excl : Option Nat) (l : List Nat)
    (p : Nat × WireEvent) :
    p ∈ broadcastTargets m excl l ↔ p.1 ∈ l ∧ some p.1 ≠ excl ∧ p.2 = m := by
  obtain ⟨v, w⟩ := p
  induction l with
  | nil => simp [broadcastTargets]
  | cons x rest ih =>
    by_cases h : some x = excl
    · rw [broadcastTargets, if_pos h, ih]
      constructor
      · rintro ⟨hm, hne, hw⟩
        exact ⟨List.mem_cons_of_mem x hm, hne, hw⟩
      · rintro ⟨hm, hne, hw⟩
        rcases List.mem_cons.mp hm with rfl | hm2
        · exact absurd h hne
        · exact ⟨hm2, hne, hw⟩
    · rw [broadcastTargets, if_neg h]
      constructor
      · intro hp
        rcases List.mem_cons.mp hp with he | hmem
        · injection he with h1 h2
          subst h1
          subst h2
          exact ⟨List.mem_cons_self v rest, h, rfl⟩
        · obtain ⟨hm, hne, hw⟩ := ih.mp hmem
          exact ⟨List.mem_cons_of_mem x hm, hne, hw⟩
      · rintro ⟨hm, hne, hw⟩
        rcases List.mem_cons.mp hm with rfl | hm2
        · subst hw
          exact List.mem_cons_self _ _
        · exact List.mem_cons_of_mem _ (ih.mpr ⟨hm2, hne, hw⟩)

theorem broadcastTargets_fst (m : WireEvent) (excl : Option Nat) (l : List Nat) :
    (broadcastTargets m excl l).map Prod.fst =
      l.filter (fun x => !(some x == excl)) := by
  induction l with
  | nil => simp [broadcastTargets]
  | cons x rest ih =>
    by_cases h : some x = excl
    · rw [broadcastTargets, if_pos h, List.filter_cons]
      simp [h, ih]
    · rw [broadcastTargets, if_neg h, List.filter_cons]
      simp [h, ih]

theorem count_filter_not_excl (excl : Option Nat) (l : List Nat) (v : Nat)
    (h : l.Nodup) :
    (l.filter (fun x => !(some x == excl))).count v =
      if v ∈ l ∧ some v ≠ excl then 1 else 0 := by
  induction l with
  | nil => simp
  | cons x rest ih =>
    have hx_rest : x ∉ rest := (List.nodup_cons.mp h).1
    have hrest := ih (List.nodup_cons.mp h).2
    rw [List.filter_cons]
    by_cases hx : some x = excl
    · have hcond : (!(some x == excl)) = false := by simp [hx]
      rw [hcond, if_neg (by simp), hrest]
      by_cases hv : v = x
      · subst hv
        have h2 : ¬ (v ∈ rest ∧ some v ≠ excl) := fun hc => hx_rest hc.1
        have h3 : ¬ (v ∈ v :: rest ∧ some v ≠ excl) := fun hc => hc.2 hx
        rw [if_neg h2, if_neg h3]
      · have hiff : (v ∈ x :: rest ∧ some v ≠ excl) ↔ (v ∈ rest ∧ some v ≠ excl) := by
          constructor
          · rintro ⟨hm, hne⟩
            rcases List.mem_cons.mp hm with rfl | hm2
            · exact absurd rfl hv
            · exact ⟨hm2, hne⟩
          · rintro ⟨hm, hne⟩
            exact ⟨List.mem_cons_of_mem x hm, hne⟩
        simp only [hiff]
    · have hcond : (!(some x == excl)) = true := by simp [hx]
      rw [hcond, if_pos rfl, List.count_cons, hrest]
      by_cases hv : v = x
      · subst hv
        have h2 : ¬ (v ∈ rest ∧ some v ≠ excl) := fun hc => hx_rest hc.1
        have h3 : (v ∈ v :: rest ∧ some v ≠ excl) := ⟨List.mem_cons_self v rest, hx⟩
        rw [if_neg h2, if_pos h3]
        simp
      · have hbeq : (x == v) = false := by
          simp only [beq_eq_false_iff_ne, ne_eq]
          exact fun he => hv he.symm
        have hiff : (v ∈ x :: rest ∧ some v ≠ excl) ↔ (v ∈ rest ∧ some v ≠ excl) := by
          constructor
          · rintro ⟨hm, hne⟩
            rcases List.mem_cons.mp hm with rfl | hm2
            · exact absurd rfl hv
            · exact ⟨hm2, hne⟩
          · rintro ⟨hm, hne⟩
            exact ⟨List.mem_cons_of_mem x hm, hne⟩
        simp only [hiff, hbeq]
        simp

/-! ## Claim C4 -/

/-- C4: every call to `broadcast_to_conversation` attempts delivery (via
`send_to_user`) for exactly the current subscription members of the
conversation minus the excluded user: the excluded id is never handed to
`send_to_user` in that dispatch, every other member exactly once, and
with no exclusion every member is attempted. -/
theorem claim_C4_broadcast_exclusion (tr : Transport) (st : ManagerState)
    (cid : Nat) (m : WireEvent) (excl : Option Nat)
    (h : (subsMembers st cid).Nodup) :
    ∃ att, broadcast_to_conversation tr st cid m excl = .ok att ∧
      (∀ v : Nat, (att.map Prod.fst).count v =
        if v ∈ subsMembers st cid ∧ some v ≠ excl then 1 else 0) ∧
      (∀ p ∈ att, p.1 ∈ subsMembers st cid ∧ some p.1 ≠ excl ∧ p.2 = m) := by
  refine ⟨_, broadcast_to_conversation_eq tr st cid m excl, ?_, ?_⟩
  · intro v
    rw [broadcastTargets_fst]
    exact count_filter_not_excl excl (subsMembers st cid) v h
  · intro p hp
    exact (mem_broadcastTargets m excl (subsMembers st cid) p).mp hp

theorem claim_C4_broadcast_exclusion_witness :
    ∃ att, broadcast_to_conversation tr0 stC7 1 pongEvent (some 2) = .ok att ∧
      (att.map Prod.fst).count 3 = 1 ∧ (att.map Prod.fst).count 2 = 0 := by
  obtain ⟨att, he, hc, _⟩ :=
    claim_C4_broadcast_exclusion tr0 stC7 1 pongEvent (some 2) (by decide)
  refine ⟨att, he, ?_, ?_⟩
  · rw [hc 3, if_pos (by decide)]
  · rw [hc 2, if_neg (by decide)]

/-! ## Claim C5 -/

/-- C5: a transport failure while sending to one recipient is swallowed
inside `send_personal_message` / `send_to_user` and never reaches the
caller, so a broadcast attempts every remaining member whatever the
transport does: the result of `broadcast_to_conversation` is the full
target list, identical for every transport oracle. -/
theorem claim_C5_delivery_failure_isolated :
    (∀ (tr : Transport) (m : WireEvent) (ws : Nat),
      send_personal_message tr m ws = .ok ()) ∧
    (∀ (tr : Transport) (ac : List (Nat × Nat)) (u : Nat) (m : WireEvent),
      ∃ att, send_to_user tr ac u m = .ok att) ∧
    (∀ (tr : Transport) (st : ManagerState) (cid : Nat) (m : WireEvent)
      (excl : Option Nat),
      broadcast_to_conversation tr st cid m excl =
        .ok (broadcastTargets m excl (subsMembers st cid))) := by
  refine ⟨send_personal_message_ok, ?_, broadcast_to_conversation_eq⟩
  intro tr ac u m
  exact ⟨_, send_to_user_eq tr ac u m⟩

/-! ## Claim C9 -/

/-- C9: a second `connect` for the same user id overwrites the registry
entry without error; afterwards `send_to_user` for that id delivers
only to the second handle, and the first handle receives nothing via
the registry. -/
theorem claim_C9_second_connection_supersedes (tr : Transport) (st : ManagerState)
    (u ws1 ws2 : Nat) (m : WireEvent) (h : ws1 ≠ ws2) :
    ∃ r1, connect tr ws1 u st = .ok r1 ∧
    ∃ r2, connect tr ws2 u r1.1 = .ok r2 ∧
      dlookup u r2.1.active_connections = some ws2 ∧
      send_to_user tr r2.1.active_connections u m = .ok [(ws2, m)] ∧
      ∀ att, send_to_user tr r2.1.active_connections u m = .ok att →
        (ws1, m) ∉ att := by
  refine ⟨_, connect_eq tr ws1 u st, _, connect_eq tr ws2 u _, ?_, ?_, ?_⟩
  · exact dlookup_dinsert u ws2 _
  · rw [send_to_user_eq, dlookup_dinsert]
    rfl
  · intro att hatt
    rw [send_to_user_eq, dlookup_dinsert] at hatt
    have hor : att = [(ws2, m)] := by
      injection hatt with hh
      exact hh.symm
    subst hor
    intro hmem
    have he : (ws1, m) = (ws2, m) := List.mem_singleton.mp hmem
    exact h (congrArg Prod.fst he)

/-! ## Subscription-index lemmas (for C6) -/

theorem mem_dinsert (k : Nat) (v : α) (l : List (Nat × α)) (p : Nat × α)
    (hp : p ∈ dinsert k v l) : p ∈ l ∨ p = (k, v) := by
  induction l with
  | nil => simpa [dinsert] using hp
  | cons q rest ih =>
    obtain ⟨a, b⟩ := q
    by_cases h : a = k
    · subst h
      rcases List.mem_cons.mp (by simpa [dinsert] using hp) with rfl | hm
      · exact Or.inr rfl
      · exact Or.inl (List.mem_cons_of_mem _ hm)
    · rcases List.mem_cons.mp (by simpa [dinsert, h] using hp) with rfl | hm
      · exact Or.inl (List.mem_cons_self _ _)
      · rcases ih hm with hm2 | hm2
        · exact Or.inl (List.mem_cons_of_mem _ hm2)
        · exact Or.inr hm2

theorem dlookup_some_mem (k : Nat) (v : α) (l : List (Nat × α))
    (h : dlookup k l = some v) : (k, v) ∈ l := by
  induction l with
  | nil => simp [dlookup] at h
  | cons q rest ih =>
    obtain ⟨a, b⟩ := q
    by_cases ha : a = k
    · subst ha
      simp [dlookup] at h
      subst h
      exact List.mem_cons_self _ _
    · simp only [dlookup, if_neg ha] at h
      exact List.mem_cons_of_mem _ (ih h)

theorem dmodify_dmodify (k : Nat) (f g : α → α) (l : List (Nat × α)) :
    dmodify k f (dmodify k g l) = dmodify k (fun v => f (g v)) l := by
  induction l with
  | nil => rfl
  | cons q rest ih =>
    obtain ⟨a, b⟩ := q
    by_cases h : a = k
    · subst h
      simp [dmodify, ih]
    · simp [dmodify, h, ih]

theorem dmodify_congr_mem (k : Nat) (f g : α → α) (l : List (Nat × α))
    (h : ∀ p ∈ l, p.1 = k → f p.2 = g p.2) :
    dmodify k f l = dmodify k g l := by
  induction l with
  | nil => rfl
  | cons q rest ih =>
    obtain ⟨a, b⟩ := q
    by_cases ha : a = k
    · subst ha
      simp only [dmodify, if_pos rfl]
      rw [h (a, b) (List.mem_cons_self _ _) rfl,
        ih (fun p hp hk => h p (List.mem_cons_of_mem _ hp) hk)]
    · simp only [dmodify, if_neg ha]
      rw [ih (fun p hp hk => h p (List.mem_cons_of_mem _ hp) hk)]

theorem dmem_of_dlookup_some (k : Nat) (v : α) (l : List (Nat × α))
    (h : dlookup k l = some v) : dmem k l = true := by
  simp [dmem, h]

theorem subscribe_eq_of_dmem (cid u : Nat) (st : ManagerState)
    (h : dmem cid st.conversation_subscriptions = true) :
    subscribe_to_conversation cid u st =
      { st with conversation_subscriptions :=
          (dmodify cid (sadd u) st.conversation_subscriptions) } := by
  simp [subscribe_to_conversation, h]

theorem subscribe_eq_of_not_dmem (cid u : Nat) (st : ManagerState)
    (h : ¬ dmem cid st.conversation_subscriptions = true) :
    subscribe_to_conversation cid u st =
      { st with conversation_subscriptions :=
          (dmodify cid (sadd u) (dinsert cid [] st.conversation_subscriptions)) } := by
  simp [subscribe_to_conversation, h]

theorem unsubscribe_eq_of_del (cid u : Nat) (st : ManagerState)
    (hm : dmem cid st.conversation_subscriptions = true)
    (he : dlookup cid (dmodify cid (serase u) st.conversation_subscriptions) = some []) :
    unsubscribe_from_conversation cid u st =
      { st with conversation_subscriptions :=
          (ddel cid (dmodify cid (serase u) st.conversation_subscriptions)) } := by
  simp [unsubscribe_from_conversation, hm, he]

theorem unsubscribe_eq_of_keep (cid u : Nat) (st : ManagerState)
    (hm : dmem cid st.conversation_subscriptions = true)
    (he : ¬ dlookup cid (dmodify cid (serase u) st.conversation_subscriptions) = some []) :
    unsubscribe_from_conversation cid u st =
      { st with conversation_subscriptions :=
          (dmodify cid (serase u) st.conversation_subscriptions) } := by
  simp [unsubscribe_from_conversation, hm, he]

theorem unsubscribe_eq_of_not_dmem (cid u : Nat) (st : ManagerState)
    (hm : ¬ dmem cid st.conversation_subscriptions = true) :
    unsubscribe_from_conversation cid u st = st := by
  simp [unsubscribe_from_conversation, hm]

theorem mem_subscribe_self (cid u : Nat) (st : ManagerState) :
    u ∈ subsMembers (subscribe_to_conversation cid u st) cid := by
  unfold subsMembers
  by_cases h : dmem cid st.conversation_subscriptions = true
  · obtain ⟨s, hs⟩ := Option.isSome_iff_exists.mp h
    rw [subscribe_eq_of_dmem cid u st h]
    show u ∈ (dlookup cid (dmodify cid (sadd u) st.conversation_subscriptions)).getD []
    rw [dlookup_dmodify, hs]
    simpa using (mem_sadd u u s).mpr (Or.inr rfl)
  · rw [subscribe_eq_of_not_dmem cid u st h]
    show u ∈ (dlookup cid
      (dmodify cid (sadd u) (dinsert cid [] st.conversation_subscriptions))).getD []
    rw [dlookup_dmodify, dlookup_dinsert]
    simpa using (mem_sadd u u []).mpr (Or.inr rfl)

theorem mem_unsubscribe_self (cid u : Nat) (st : ManagerState)
    (h : ∀ p ∈ st.conversation_subscriptions, p.2.Nodup) :
    u ∉ subsMembers (unsubscribe_from_conversation cid u st) cid := by
  unfold subsMembers
  by_cases hm : dmem cid st.conversation_subscriptions = true
  · obtain ⟨s, hs⟩ := Option.isSome_iff_exists.mp hm
    have hsub1 : dlookup cid (dmodify cid (serase u) st.conversation_subscriptions) =
        some (serase u s) := by
      rw [dlookup_dmodify, hs]
      rfl
    by_cases he : dlookup cid (dmodify cid (serase u) st.conversation_subscriptions) =
        some []
    · rw [unsubscribe_eq_of_del cid u st hm he]
      show u ∉ (dlookup cid
        (ddel cid (dmodify cid (serase u) st.conversation_subscriptions))).getD []
      rw [dlookup_ddel]
      simp
    · rw [unsubscribe_eq_of_keep cid u st hm he]
      show u ∉ (dlookup cid
        (dmodify cid (serase u) st.conversation_subscriptions)).getD []
      rw [hsub1]
      have hnd : s.Nodup := h (cid, s) (dlookup_some_mem cid s _ hs)
      simpa using not_mem_serase u s hnd
  · rw [unsubscribe_eq_of_not_dmem cid u st hm, dmem_false_dlookup _ _ hm]
    simp

theorem setsNodup_applySubOp (cid u : Nat) (st : ManagerState) (op : SubOp)
    (h : setsNodup st) : setsNodup (applySubOp cid u st op) := by
  obtain ⟨h1, h2⟩ := h
  cases op with
  | sub =>
    show setsNodup (subscribe_to_conversation cid u st)
    by_cases hm : dmem cid st.conversation_subscriptions = true
    · rw [subscribe_eq_of_dmem cid u st hm]
      refine ⟨?_, h2⟩
      exact dmodify_forall cid (sadd u) _ List.Nodup
        (fun q hq _ => h1 q hq) (fun q hq _ => sadd_nodup u q.2 (h1 q hq))
    · rw [subscribe_eq_of_not_dmem cid u st hm]
      refine ⟨?_, h2⟩
      refine dmodify_forall cid (sadd u) _ List.Nodup
        (fun q hq _ => ?_) (fun q hq _ => ?_)
      · rcases mem_dinsert cid [] _ q hq with hq2 | hq2
        · exact h1 q hq2
        · rw [hq2]
          exact List.nodup_nil
      · rcases mem_dinsert cid [] _ q hq with hq2 | hq2
        · exact sadd_nodup u q.2 (h1 q hq2)
        · rw [hq2]
          exact sadd_nodup u [] List.nodup_nil
  | unsub =>
    show setsNodup (unsubscribe_from_conversation cid u st)
    have hmod : ∀ p ∈ dmodify cid (serase u) st.conversation_subscriptions,
        p.2.Nodup :=
      dmodify_forall cid (serase u) _ List.Nodup
        (fun q hq _ => h1 q hq) (fun q hq _ => serase_nodup u q.2 (h1 q hq))
    by_cases hm : dmem cid st.conversation_subscriptions = true
    · by_cases he : dlookup cid (dmodify cid (serase u) st.conversation_subscriptions) =
          some []
      · rw [unsubscribe_eq_of_del cid u st hm he]
        exact ⟨fun p hp => hmod p (mem_ddel cid _ p hp), h2⟩
      · rw [unsubscribe_eq_of_keep cid u st hm he]
        exact ⟨hmod, h2⟩
    · rw [unsubscribe_eq_of_not_dmem cid u st hm]
      exact ⟨h1, h2⟩

theorem applySubOps_cons (cid u : Nat) (st : ManagerState) (op : SubOp)
    (ops : List SubOp) :
    applySubOps cid u st (op :: ops) = applySubOps cid u (applySubOp cid u st op) ops :=
  rfl

theorem applySubOps_append_one (cid u : Nat) (st : ManagerState) (ops : List SubOp)
    (op : SubOp) :
    applySubOps cid u st (ops ++ [op]) = applySubOp cid u (applySubOps cid u st ops) op := by
  unfold applySubOps
  rw [List.foldl_append]
  rfl

theorem setsNodup_applySubOps (cid u : Nat) (st : ManagerState) (ops : List SubOp)
    (h : setsNodup st) : setsNodup (applySubOps cid u st ops) := by
  induction ops generalizing st with
  | nil => exact h
  | cons op rest ih =>
    rw [applySubOps_cons]
    exact ih _ (setsNodup_applySubOp cid u st op h)

theorem applySubOp_idem (cid u : Nat) (st : ManagerState) (op : SubOp)
    (h : setsNodup st) :
    applySubOp cid u (applySubOp cid u st op) op = applySubOp cid u st op := by
  cases op with
  | sub =>
    show subscribe_to_conversation cid u (subscribe_to_conversation cid u st) =
      subscribe_to_conversation cid u st
    have hsome : ∃ s, dlookup cid
        (subscribe_to_conversation cid u st).conversation_subscriptions =
        some (sadd u s) := by
      by_cases hm : dmem cid st.conversation_subscriptions = true
      · obtain ⟨s, hs⟩ := Option.isSome_iff_exists.mp hm
        refine ⟨s, ?_⟩
        rw [subscribe_eq_of_dmem cid u st hm]
        show dlookup cid (dmodify cid (sadd u) st.conversation_subscriptions) =
          some (sadd u s)
        rw [dlookup_dmodify, hs]
        rfl
      · refine ⟨[], ?_⟩
        rw [subscribe_eq_of_not_dmem cid u st hm]
        show dlookup cid
          (dmodify cid (sadd u) (dinsert cid [] st.conversation_subscriptions)) =
          some (sadd u [])
        rw [dlookup_dmodify, dlookup_dinsert]
        rfl
    obtain ⟨s, hl⟩ := hsome
    have hm1 : dmem cid
        (subscribe_to_conversation cid u st).conversation_subscriptions = true := by
      simp [dmem, hl]
    rw [subscribe_eq_of_dmem cid u _ hm1]
    have hidem : dmodify cid (sadd u)
        (subscribe_to_conversation cid u st).conversation_subscriptions =
        (subscribe_to_conversation cid u st).conversation_subscriptions := by
      by_cases hm : dmem cid st.conversation_subscriptions = true
      · rw [subscribe_eq_of_dmem cid u st hm]
        show dmodify cid (sadd u) (dmodify cid (sadd u) st.conversation_subscriptions) =
          dmodify cid (sadd u) st.conversation_subscriptions
        rw [dmodify_dmodify]
        exact dmodify_congr_mem cid _ _ _ (fun p _ _ => sadd_idem u p.2)
      · rw [subscribe_eq_of_not_dmem cid u st hm]
        show dmodify cid (sadd u)
            (dmodify cid (sadd u) (dinsert cid [] st.conversation_subscriptions)) =
          dmodify cid (sadd u) (dinsert cid [] st.conversation_subscriptions)
        rw [dmodify_dmodify]
        exact dmodify_congr_mem cid _ _ _ (fun p _ _ => sadd_idem u p.2)
    rw [hidem]
  | unsub =>
    show unsubscribe_from_conversation cid u (unsubscribe_from_conversation cid u st) =
      unsubscribe_from_conversation cid u st
    by_cases hm : dmem cid st.conversation_subscriptions = true
    · obtain ⟨s, hs⟩ := Option.isSome_iff_exists.mp hm
      have hsub1 : dlookup cid (dmodify cid (serase u) st.conversation_subscriptions) =
          some (serase u s) := by
        rw [dlookup_dmodify, hs]
        rfl
      by_cases he : dlookup cid (dmodify cid (serase u) st.conversation_subscriptions) =
          some []
      · have h1 := unsubscribe_eq_of_del cid u st hm he
        have h2 : ¬ dmem cid
            (unsubscribe_from_conversation cid u st).conversation_subscriptions = true := by
          rw [h1]
          show ¬ dmem cid
            (ddel cid (dmodify cid (serase u) st.conversation_subscriptions)) = true
          simp [dmem, dlookup_ddel]
        exact unsubscribe_eq_of_not_dmem cid u _ h2
      · have h1 := unsubscribe_eq_of_keep cid u st hm he
        rw [h1]
        have hidem : dmodify cid (serase u)
            (dmodify cid (serase u) st.conversation_subscriptions) =
            dmodify cid (serase u) st.conversation_subscriptions := by
          rw [dmodify_dmodify]
          refine dmodify_congr_mem cid _ _ _ (fun p hp _ => ?_)
          exact serase_of_not_mem u (serase u p.2) (not_mem_serase u p.2 (h.1 p hp))
        have hm1 : dmem cid ({ st with conversation_subscriptions :=
            (dmodify cid (serase u) st.conversation_subscriptions) } :
            ManagerState).conversation_subscriptions = true := by
          show dmem cid (dmodify cid (serase u) st.conversation_subscriptions) = true
          simp [dmem, hsub1]
        have he1 : ¬ dlookup cid (dmodify cid (serase u)
            ({ st with conversation_subscriptions :=
              (dmodify cid (serase u) st.conversation_subscriptions) } :
              ManagerState).conversation_subscriptions) = some [] := by
          show ¬ dlookup cid (dmodify cid (serase u)
            (dmodify cid (serase u) st.conversation_subscriptions)) = some []
          rw [hidem]
          exact he
        rw [unsubscribe_eq_of_keep cid u _ hm1 he1]
        show ({ st with conversation_subscriptions :=
            (dmodify cid (serase u)
              (dmodify cid (serase u) st.conversation_subscriptions)) } : ManagerState) =
          ({ st with conversation_subscriptions :=
            (dmodify cid (serase u) st.conversation_subscriptions) } : ManagerState)
        rw [hidem]
    · have h1 := unsubscribe_eq_of_not_dmem cid u st hm
      rw [h1]
      exact h1

theorem unsubscribe_prunes_empty (cid u : Nat) (st : ManagerState) (s : List Nat)
    (hs : dlookup cid st.conversation_subscriptions = some s) (he : serase u s = []) :
    dlookup cid (unsubscribe_from_conversation cid u st).conversation_subscriptions =
      none := by
  have hm : dmem cid st.conversation_subscriptions = true := dmem_of_dlookup_some cid s _ hs
  have h1 : dlookup cid (dmodify cid (serase u) st.conversation_subscriptions) =
      some [] := by
    rw [dlookup_dmodify, hs]
    simp [he]
  rw [unsubscribe_eq_of_del cid u st hm h1]
  exact dlookup_ddel cid _

/-! ## Typing-tracker lemmas (for C8 and C7) -/

theorem typingUpdate_true_of_dmem (cid u : Nat) (typ : List (Nat × List Nat))
    (h : dmem cid typ = true) :
    typingUpdate cid u true typ = dmodify cid (sadd u) typ := by
  simp [typingUpdate, h]

theorem typingUpdate_true_of_not_dmem (cid u : Nat) (typ : List (Nat × List Nat))
    (h : ¬ dmem cid typ = true) :
    typingUpdate cid u true typ = dmodify cid (sadd u) (dinsert cid [] typ) := by
  simp [typingUpdate, h]

theorem typingUpdate_false_del (cid u : Nat) (typ : List (Nat × List Nat))
    (hm : dmem cid typ = true)
    (he : dlookup cid (dmodify cid (serase u) typ) = some []) :
    typingUpdate cid u false typ = ddel cid (dmodify cid (serase u) typ) := by
  simp [typingUpdate, hm, he]

theorem typingUpdate_false_keep (cid u : Nat) (typ : List (Nat × List Nat))
    (hm : dmem cid typ = true)
    (he : ¬ dlookup cid (dmodify cid (serase u) typ) = some []) :
    typingUpdate cid u false typ = dmodify cid (serase u) typ := by
  simp [typingUpdate, hm, he]

theorem typingUpdate_false_not_dmem (cid u : Nat) (typ : List (Nat × List Nat))
    (hm : ¬ dmem cid typ = true) :
    typingUpdate cid u false typ =
      ddel cid (dmodify cid (serase u) (dinsert cid [] typ)) := by
  have he : dlookup cid (dmodify cid (serase u) (dinsert cid [] typ)) = some [] := by
    rw [dlookup_dmodify, dlookup_dinsert]
    rfl
  simp [typingUpdate, hm, he]

theorem tset_typingUpdate_self_true (cid u : Nat) (typ : List (Nat × List Nat)) :
    u ∈ tset cid (typingUpdate cid u true typ) := by
  unfold tset
  by_cases h : dmem cid typ = true
  · obtain ⟨s, hs⟩ := Option.isSome_iff_exists.mp h
    rw [typingUpdate_true_of_dmem cid u typ h, dlookup_dmodify, hs]
    simpa using (mem_sadd u u s).mpr (Or.inr rfl)
  · rw [typingUpdate_true_of_not_dmem cid u typ h, dlookup_dmodify, dlookup_dinsert]
    simpa using (mem_sadd u u []).mpr (Or.inr rfl)

theorem tset_typingUpdate_self_false (cid u : Nat) (typ : List (Nat × List Nat))
    (h : (tset cid typ).Nodup) :
    u ∉ tset cid (typingUpdate cid u false typ) := by
  unfold tset
  by_cases hm : dmem cid typ = true
  · obtain ⟨s, hs⟩ := Option.isSome_iff_exists.mp hm
    have hts : tset cid typ = s := by simp [tset, hs]
    by_cases he : dlookup cid (dmodify cid (serase u) typ) = some []
    · rw [typingUpdate_false_del cid u typ hm he, dlookup_ddel]
      simp
    · rw [typingUpdate_false_keep cid u typ hm he, dlookup_dmodify, hs]
      have hnd : s.Nodup := hts ▸ h
      simpa using not_mem_serase u s hnd
  · rw [typingUpdate_false_not_dmem cid u typ hm, dlookup_ddel]
    simp

theorem tset_typingUpdate_ne (cid u v : Nat) (typ : List (Nat × List Nat))
    (hvu : v ≠ u) (b : Bool) :
    v ∈ tset cid (typingUpdate cid u b typ) ↔ v ∈ tset cid typ := by
  unfold tset
  by_cases hm : dmem cid typ = true
  · obtain ⟨s, hs⟩ := Option.isSome_iff_exists.mp hm
    cases b with
    | true =>
      rw [typingUpdate_true_of_dmem cid u typ hm, dlookup_dmodify, hs]
      simp only [hs, Option.map_some, Option.getD_some]
      constructor
      · intro hv
        rcases (mem_sadd u v s).mp hv with hv2 | hv2
        · exact hv2
        · exact absurd hv2 hvu
      · intro hv
        exact (mem_sadd u v s).mpr (Or.inl hv)
    | false =>
      by_cases he : dlookup cid (dmodify cid (serase u) typ) = some []
      · rw [typingUpdate_false_del cid u typ hm he, dlookup_ddel]
        have hse : serase u s = [] := by
          rw [dlookup_dmodify, hs] at he
          simpa using he
        simp only [Option.getD_none, List.not_mem_nil, false_iff, hs,
          Option.getD_some]
        intro hv
        have : v ∈ serase u s := (mem_serase_ne u v s hvu).mpr hv
        rw [hse] at this
        simp at this
      · rw [typingUpdate_false_keep cid u typ hm he, dlookup_dmodify, hs]
        simp only [Option.map_some, Option.getD_some, hs]
        exact mem_serase_ne u v s hvu
  · have h0 : dlookup cid typ = none := dmem_false_dlookup cid typ hm
    cases b with
    | true =>
      rw [typingUpdate_true_of_not_dmem cid u typ hm, dlookup_dmodify,
        dlookup_dinsert, h0]
      constructor
      · intro hv
        rcases (mem_sadd u v []).mp (by simpa using hv) with hv2 | hv2
        · simp at hv2
        · exact absurd hv2 hvu
      · intro hv
        simp at hv
    | false =>
      rw [typingUpdate_false_not_dmem cid u typ hm, dlookup_ddel, h0]

theorem tset_nodup_typingUpdate (cid u : Nat) (b : Bool) (typ : List (Nat × List Nat))
    (h : (tset cid typ).Nodup) :
    (tset cid (typingUpdate cid u b typ)).Nodup := by
  unfold tset
  by_cases hm : dmem cid typ = true
  · obtain ⟨s, hs⟩ := Option.isSome_iff_exists.mp hm
    have hts : s.Nodup := by simpa [tset, hs] using h
    cases b with
    | true =>
      rw [typingUpdate_true_of_dmem cid u typ hm, dlookup_dmodify, hs]
      simpa using sadd_nodup u s hts
    | false =>
      by_cases he : dlookup cid (dmodify cid (serase u) typ) = some []
      · rw [typingUpdate_false_del cid u typ hm he, dlookup_ddel]
        simp
      · rw [typingUpdate_false_keep cid u typ hm he, dlookup_dmodify, hs]
        simpa using serase_nodup u s hts
  · cases b with
    | true =>
      rw [typingUpdate_true_of_not_dmem cid u typ hm, dlookup_dmodify,
        dlookup_dinsert]
      simpa using sadd_nodup u [] List.nodup_nil
    | false =>
      rw [typingUpdate_false_not_dmem cid u typ hm, dlookup_ddel]
      simp

theorem applyTypingEvents_cons (cid : Nat) (typ : List (Nat × List Nat))
    (e : Nat × Bool) (evs : List (Nat × Bool)) :
    applyTypingEvents cid typ (e :: evs) =
      applyTypingEvents cid (typingUpdate cid e.1 e.2 typ) evs :=
  rfl

theorem applyTypingEvents_append_one (cid : Nat) (typ : List (Nat × List Nat))
    (evs : List (Nat × Bool)) (e : Nat × Bool) :
    applyTypingEvents cid typ (evs ++ [e]) =
      typingUpdate cid e.1 e.2 (applyTypingEvents cid typ evs) := by
  unfold applyTypingEvents
  rw [List.foldl_append]
  rfl

theorem tset_nodup_applyTypingEvents (cid : Nat) (typ : List (Nat × List Nat))
    (evs : List (Nat × Bool)) (h : (tset cid typ).Nodup) :
    (tset cid (applyTypingEvents cid typ evs)).Nodup := by
  induction evs generalizing typ with
  | nil => exact h
  | cons e rest ih =>
    rw [applyTypingEvents_cons]
    exact ih _ (tset_nodup_typingUpdate cid e.1 e.2 typ h)

theorem mem_applyTypingEvents (cid v : Nat) (typ : List (Nat × List Nat))
    (evs : List (Nat × Bool)) (h0 : dlookup cid typ = none) :
    v ∈ tset cid (applyTypingEvents cid typ evs) ↔
      lastTyping v evs = some true := by
  induction evs using List.reverseRecOn with
  | nil => simp [applyTypingEvents, tset, h0, lastTyping]
  | append_singleton evs e ih =>
    obtain ⟨w, b⟩ := e
    rw [applyTypingEvents_append_one]
    by_cases hw : w = v
    · subst hw
      have hlast : lastTyping w (evs ++ [(w, b)]) = some b := by
        unfold lastTyping
        rw [List.filter_append]
        simp [List.getLast?_concat]
      rw [hlast]
      cases b with
      | true => simp [tset_typingUpdate_self_true]
      | false =>
        have hnd : (tset cid (applyTypingEvents cid typ evs)).Nodup :=
          tset_nodup_applyTypingEvents cid typ evs (by simp [tset, h0])
        simp [tset_typingUpdate_self_false cid w _ hnd]
    · have hlast : lastTyping v (evs ++ [(w, b)]) = lastTyping v evs := by
        unfold lastTyping
        rw [List.filter_append]
        have hnil : List.filter (fun e => e.1 == v) [(w, b)] = [] := by
          simp [hw]
        rw [hnil, List.append_nil]
      rw [hlast, tset_typingUpdate_ne cid w v _ (fun hh => hw hh.symm) b]
      exact ih

theorem handle_typing_eq (tr : Transport) (st : ManagerState) (cid u : Nat)
    (n : String) (t : Bool) :
    handle_typing tr st cid u n t =
      .ok ({ st with typing_users := (typingUpdate cid u t st.typing_users) },
        broadcastTargets (typingEvent cid u n t) (some u)
          (subsMembers { st with
            typing_users := (typingUpdate cid u t st.typing_users) } cid)) := by
  simp only [handle_typing, broadcast_to_conversation_eq, Except.map]

/-! ## Claim C8 -/

/-- C8: `handle_typing` updates the typing tracker exactly by
`typingUpdate` (`is_typing=true` adds the user, creating the entry on
first such event; `is_typing=false` removes the user); a true event
followed by a false event from the same user removes the conversation
entry; and over any interleaved event sequence the users present are
exactly those whose last event was `is_typing=true`. -/
theorem claim_C8_typing_state (cid : Nat) :
    (∀ (tr : Transport) (st : ManagerState) (u : Nat) (n : String) (t : Bool),
      ∃ att, handle_typing tr st cid u n t =
        .ok ({ st with typing_users := (typingUpdate cid u t st.typing_users) },
          att)) ∧
    (∀ (typ : List (Nat × List Nat)) (A : Nat), dlookup cid typ = none →
      dlookup cid (applyTypingEvents cid typ [(A, true), (A, false)]) = none) ∧
    (∀ (typ : List (Nat × List Nat)) (evs : List (Nat × Bool)) (v : Nat),
      dlookup cid typ = none →
      (v ∈ tset cid (applyTypingEvents cid typ evs) ↔
        lastTyping v evs = some true)) := by
  refine ⟨fun tr st u n t => ⟨_, handle_typing_eq tr st cid u n t⟩, ?_, ?_⟩
  · intro typ A h0
    show dlookup cid (typingUpdate cid A false (typingUpdate cid A true typ)) = none
    have hnm : ¬ dmem cid typ = true := by simp [dmem, h0]
    rw [typingUpdate_true_of_not_dmem cid A typ hnm]
    have h1 : dlookup cid (dmodify cid (sadd A) (dinsert cid [] typ)) =
        some (sadd A []) := by
      rw [dlookup_dmodify, dlookup_dinsert]
      rfl
    have hm1 : dmem cid (dmodify cid (sadd A) (dinsert cid [] typ)) = true := by
      simp [dmem, h1]
    have h2 : dlookup cid (dmodify cid (serase A)
        (dmodify cid (sadd A) (dinsert cid [] typ))) = some [] := by
      rw [dlookup_dmodify, h1]
      have : serase A (sadd A []) = [] := by simp [sadd, serase]
      simp [this]
    rw [typingUpdate_false_del cid A _ hm1 h2, dlookup_ddel]
  · intro typ evs v h0
    exact mem_applyTypingEvents cid v typ evs h0

theorem claim_C8_typing_state_witness :
    (∃ att, handle_typing tr0 stC7 1 2 "Alice" true =
      .ok ({ stC7 with typing_users := (typingUpdate 1 2 true stC7.typing_users) },
        att)) ∧
    dlookup 1 (applyTypingEvents 1 ([] : List (Nat × List Nat))
      [(2, true), (2, false)]) = none ∧
    (2 ∈ tset 1 (applyTypingEvents 1 ([] : List (Nat × List Nat))
      [(2, true), (3, true), (2, false)]) ↔
      lastTyping 2 [(2, true), (3, true), (2, false)] = some true) := by
  obtain ⟨h1, h2, h3⟩ := claim_C8_typing_state 1
  exact ⟨h1 tr0 stC7 2 "Alice" true, h2 [] 2 (by decide),
    h3 [] [(2, true), (3, true), (2, false)] 2 (by decide)⟩

/-! ## Invariant preservation (for C10) -/

theorem pruneUser_nonempty (u : Nat) (l : List (Nat × List Nat))
    (h : ∀ p ∈ l, p.2 ≠ []) :
    ∀ p ∈ (pruneUser u l).1, p.2 ≠ [] := by
  induction l with
  | nil => simp [pruneUser]
  | cons q rest ih =>
    obtain ⟨c, sv⟩ := q
    intro p hp
    by_cases he : serase u sv = []
    · simp only [pruneUser, he, if_pos rfl] at hp
      exact h p (List.mem_cons_of_mem _ hp)
    · simp only [pruneUser, if_neg he] at hp
      rcases List.mem_cons.mp hp with rfl | hm
      · exact he
      · exact ih (fun q hq => h q (List.mem_cons_of_mem _ hq)) p hm

theorem pruneUser_fst_sublist (u : Nat) (l : List (Nat × List Nat)) :
    ((pruneUser u l).1.map Prod.fst).Sublist (l.map Prod.fst) := by
  induction l with
  | nil => simp [pruneUser]
  | cons q rest ih =>
    obtain ⟨c, sv⟩ := q
    by_cases he : serase u sv = []
    · simp only [pruneUser, he, if_pos rfl, List.map_cons]
      exact List.Sublist.cons c (List.Sublist.refl _)
    · simp only [pruneUser, if_neg he, List.map_cons]
      exact ih.cons₂ c

theorem mem_ddel_fst_ne (k : Nat) (l : List (Nat × α)) (p : Nat × α)
    (hp : p ∈ ddel k l) : p.1 ≠ k :=
  (dlookup_eq_none_iff k (ddel k l)).mp (dlookup_ddel k l) p hp

theorem dinsert_fst_of_none (k : Nat) (v : α) (l : List (Nat × α))
    (h : dlookup k l = none) :
    (dinsert k v l).map Prod.fst = l.map Prod.fst ++ [k] := by
  rw [dinsert_of_dlookup_none k v l h]
  simp

theorem not_mem_fst_of_none (k : Nat) (l : List (Nat × α))
    (h : dlookup k l = none) : k ∉ l.map Prod.fst := by
  intro hk
  obtain ⟨p, hp, hpk⟩ := List.mem_map.mp hk
  exact (dlookup_eq_none_iff k l).mp h p hp hpk

theorem nodup_fst_dinsert_none (k : Nat) (v : α) (l : List (Nat × α))
    (hl0 : dlookup k l = none) (hn : (l.map Prod.fst).Nodup) :
    ((dinsert k v l).map Prod.fst).Nodup := by
  rw [dinsert_fst_of_none k v l hl0]
  rw [List.nodup_append]
  exact ⟨hn, List.nodup_singleton k, by simpa using not_mem_fst_of_none k l hl0⟩

theorem goodSubsNonempty_dmodify_sadd (cid u : Nat) (t : List (Nat × List Nat))
    (h : ∀ p ∈ t, p.1 ≠ cid → p.2 ≠ []) :
    ∀ p ∈ dmodify cid (sadd u) t, p.2 ≠ [] :=
  dmodify_forall cid (sadd u) t (fun v => v ≠ [])
    (fun q hq hne => h q hq hne) (fun q _ _ => sadd_ne_nil u q.2)

theorem goodState_subscribe (cid u : Nat) (st : ManagerState) (h : goodState st) :
    goodState (subscribe_to_conversation cid u st) := by
  obtain ⟨h1, h2, h3, h4⟩ := h
  by_cases hm : dmem cid st.conversation_subscriptions = true
  · rw [subscribe_eq_of_dmem cid u st hm]
    refine ⟨?_, h2, ?_, h4⟩
    · exact goodSubsNonempty_dmodify_sadd cid u _ (fun q hq _ => h1 q hq)
    · show ((dmodify cid (sadd u) st.conversation_subscriptions).map Prod.fst).Nodup
      rw [dmodify_fst]
      exact h3
  · have h0 : dlookup cid st.conversation_subscriptions = none :=
      dmem_false_dlookup _ _ hm
    rw [subscribe_eq_of_not_dmem cid u st hm]
    refine ⟨?_, h2, ?_, h4⟩
    · refine goodSubsNonempty_dmodify_sadd cid u _ (fun q hq hne => ?_)
      rcases mem_dinsert cid [] _ q hq with hq2 | hq2
      · exact h1 q hq2
      · rw [hq2] at hne
        exact absurd rfl hne
    · show ((dmodify cid (sadd u)
        (dinsert cid [] st.conversation_subscriptions)).map Prod.fst).Nodup
      rw [dmodify_fst]
      exact nodup_fst_dinsert_none cid [] _ h0 h3

theorem goodState_unsubscribe (cid u : Nat) (st : ManagerState) (h : goodState st) :
    goodState (unsubscribe_from_conversation cid u st) := by
  obtain ⟨h1, h2, h3, h4⟩ := h
  by_cases hm : dmem cid st.conversation_subscriptions = true
  · by_cases he : dlookup cid
        (dmodify cid (serase u) st.conversation_subscriptions) = some []
    · rw [unsubscribe_eq_of_del cid u st hm he]
      refine ⟨?_, h2, ?_, h4⟩
      · intro p hp
        have hne := mem_ddel_fst_ne cid _ p hp
        have hpm := mem_ddel cid _ p hp
        exact h1 p (dmodify_mem_ne cid (serase u) _ p hpm hne)
      · show ((ddel cid
          (dmodify cid (serase u) st.conversation_subscriptions)).map Prod.fst).Nodup
        exact ((ddel_fst_sublist cid _).nodup (by rw [dmodify_fst]; exact h3))
    · rw [unsubscribe_eq_of_keep cid u st hm he]
      have hn1 : ((dmodify cid (serase u)
          st.conversation_subscriptions).map Prod.fst).Nodup := by
        rw [dmodify_fst]
        exact h3
      refine ⟨?_, h2, hn1, h4⟩
      intro p hp
      by_cases hpc : p.1 = cid
      · intro hpe
        apply he
        have := dlookup_of_mem_nodup _ p hn1 hp
        rw [hpc] at this
        rw [this, hpe]
      · exact h1 p (dmodify_mem_ne cid (serase u) _ p hp hpc)
  · rw [unsubscribe_eq_of_not_dmem cid u st hm]
    exact ⟨h1, h2, h3, h4⟩

theorem typingGood_typingUpdate (cid u : Nat) (t : Bool)
    (typ : List (Nat × List Nat)) (h1 : ∀ p ∈ typ, p.2 ≠ [])
    (h2 : (typ.map Prod.fst).Nodup) :
    (∀ p ∈ typingUpdate cid u t typ, p.2 ≠ []) ∧
      ((typingUpdate cid u t typ).map Prod.fst).Nodup := by
  by_cases hm : dmem cid typ = true
  · cases t with
    | true =>
      rw [typingUpdate_true_of_dmem cid u typ hm]
      constructor
      · exact goodSubsNonempty_dmodify_sadd cid u _ (fun q hq _ => h1 q hq)
      · rw [dmodify_fst]
        exact h2
    | false =>
      by_cases he : dlookup cid (dmodify cid (serase u) typ) = some []
      · rw [typingUpdate_false_del cid u typ hm he]
        constructor
        · intro p hp
          have hne := mem_ddel_fst_ne cid _ p hp
          have hpm := mem_ddel cid _ p hp
          exact h1 p (dmodify_mem_ne cid (serase u) _ p hpm hne)
        · exact ((ddel_fst_sublist cid _).nodup (by rw [dmodify_fst]; exact h2))
      · rw [typingUpdate_false_keep cid u typ hm he]
        have hn1 : ((dmodify cid (serase u) typ).map Prod.fst).Nodup := by
          rw [dmodify_fst]
          exact h2
        refine ⟨?_, hn1⟩
        intro p hp
        by_cases hpc : p.1 = cid
        · intro hpe
          apply he
          have := dlookup_of_mem_nodup _ p hn1 hp
          rw [hpc] at this
          rw [this, hpe]
        · exact h1 p (dmodify_mem_ne cid (serase u) _ p hp hpc)
  · have h0 : dlookup cid typ = none := dmem_false_dlookup _ _ hm
    cases t with
    | true =>
      rw [typingUpdate_true_of_not_dmem cid u typ hm]
      constructor
      · refine goodSubsNonempty_dmodify_sadd cid u _ (fun q hq hne => ?_)
        rcases mem_dinsert cid [] _ q hq with hq2 | hq2
        · exact h1 q hq2
        · rw [hq2] at hne
          exact absurd rfl hne
      · rw [dmodify_fst]
        exact nodup_fst_dinsert_none cid [] _ h0 h2
    | false =>
      rw [typingUpdate_false_not_dmem cid u typ hm]
      constructor
      · intro p hp
        have hne := mem_ddel_fst_ne cid _ p hp
        have hpm := mem_ddel cid _ p hp
        have hpd := dmodify_mem_ne cid (serase u) _ p hpm hne
        rcases mem_dinsert cid [] _ p hpd with hp2 | hp2
        · exact h1 p hp2
        · rw [hp2] at hne
          exact absurd rfl hne
      · refine ((ddel_fst_sublist cid _).nodup ?_)
        rw [dmodify_fst]
        exact nodup_fst_dinsert_none cid [] _ h0 h2

theorem goodState_disconnect (u : Nat) (st : ManagerState) (h : goodState st) :
    goodState (disconnect u st).1 := by
  obtain ⟨h1, h2, h3, h4⟩ := h
  by_cases hr : (pruneUser u st.conversation_subscriptions).2 = true
  · have hd : (disconnect u st).1 =
        { active_connections :=
            (if dmem u st.active_connections = true then
              ddel u st.active_connections else st.active_connections),
          conversation_subscriptions := (pruneUser u st.conversation_subscriptions).1,
          typing_users := st.typing_users } := by
      simp [disconnect, hr]
    rw [hd]
    exact ⟨pruneUser_nonempty u _ h1, h2,
      (pruneUser_fst_sublist u _).nodup h3, h4⟩
  · have hd : (disconnect u st).1 =
        { active_connections :=
            (if dmem u st.active_connections = true then
              ddel u st.active_connections else st.active_connections),
          conversation_subscriptions := (pruneUser u st.conversation_subscriptions).1,
          typing_users := (pruneUser u st.typing_users).1 } := by
      simp [disconnect, hr]
    rw [hd]
    exact ⟨pruneUser_nonempty u _ h1, pruneUser_nonempty u _ h2,
      (pruneUser_fst_sublist u _).nodup h3, (pruneUser_fst_sublist u _).nodup h4⟩

/-! ## Claim C10 -/

/-- C10: every completed ConnectionManager operation — connect,
disconnect, subscribe, unsubscribe, handle_typing — preserves the
invariant that every conversation key present in the subscription index
or the typing tracker maps to a non-empty (duplicate-free) member set;
the initial manager satisfies the invariant. -/
theorem claim_C10_no_empty_entries (st : ManagerState) (h : goodState st) :
    goodState initialManager ∧
    (∀ (tr : Transport) (ws u : Nat) (r), connect tr ws u st = .ok r →
      goodState r.1) ∧
    (∀ u : Nat, goodState (disconnect u st).1) ∧
    (∀ cid u : Nat, goodState (subscribe_to_conversation cid u st)) ∧
    (∀ cid u : Nat, goodState (unsubscribe_from_conversation cid u st)) ∧
    (∀ (tr : Transport) (cid u : Nat) (n : String) (t : Bool) (r),
      handle_typing tr st cid u n t = .ok r → goodState r.1) := by
  obtain ⟨h1, h2, h3, h4⟩ := h
  refine ⟨by decide, ?_, fun u => goodState_disconnect u st ⟨h1, h2, h3, h4⟩,
    fun cid u => goodState_subscribe cid u st ⟨h1, h2, h3, h4⟩,
    fun cid u => goodState_unsubscribe cid u st ⟨h1, h2, h3, h4⟩, ?_⟩
  · intro tr ws u r hr
    rw [connect_eq] at hr
    injection hr with hr2
    rw [← hr2]
    exact ⟨h1, h2, h3, h4⟩
  · intro tr cid u n t r hr
    rw [handle_typing_eq] at hr
    injection hr with hr2
    rw [← hr2]
    obtain ⟨g1, g2⟩ := typingGood_typingUpdate cid u t st.typing_users h2 h4
    exact ⟨h1, g1, h3, g2⟩

theorem claim_C10_no_empty_entries_witness :
    goodState (subscribe_to_conversation 1 2 stC7) ∧
    goodState (disconnect 7 stC1).1 := by
  obtain ⟨_, _, hdis, hsub, _, _⟩ := claim_C10_no_empty_entries stC7 (by decide)
  obtain ⟨_, _, hdis1, _, _, _⟩ := claim_C10_no_empty_entries stC1 (by decide)
  exact ⟨hsub 1 2, hdis1 7⟩

/-! ## Claim C7 -/

/-- C7 counterexample: at a concrete state where user 2 types in
conversation 1 subscribed by users 2 and 3, the single dispatched
payload's `data` keys are exactly `user_id`, `user_name`, `is_typing` —
there is no `display_name` field, contradicting the claim's stated
payload shape. -/
theorem claim_C7_counterexample :
    handle_typing tr0 stC7 1 2 "Alice" true =
      .ok ({ stC7 with typing_users := [(1, [2])] },
        [(3, typingEvent 1 2 "Alice" true)]) ∧
    ((typingEvent 1 2 "Alice" true).data.getD []).map Prod.fst =
      ["user_id", "user_name", "is_typing"] ∧
    "display_name" ∉ ((typingEvent 1 2 "Alice" true).data.getD []).map Prod.fst := by
  refine ⟨by rfl, by rfl, by decide⟩

/-- C7 (amended): every `handle_typing` call triggers exactly one
broadcast of the `typing` event to the conversation's current
subscribers excluding the acting user (each other member handed to
`send_to_user` exactly once), and the payload carries the acting user's
id, display name and flag under the wire fields `user_id`, `user_name`
(not `display_name`) and `is_typing`. -/
theorem claim_C7_typing_broadcast (tr : Transport) (st : ManagerState)
    (cid u : Nat) (n : String) (t : Bool)
    (h : (subsMembers st cid).Nodup) :
    ∃ att, handle_typing tr st cid u n t =
      .ok ({ st with typing_users := (typingUpdate cid u t st.typing_users) },
        att) ∧
      (∀ v : Nat, (att.map Prod.fst).count v =
        if v ∈ subsMembers st cid ∧ v ≠ u then 1 else 0) ∧
      (∀ p ∈ att, p.2 = typingEvent cid u n t) ∧
      (typingEvent cid u n t).data =
        some [("user_id", JVal.str (toString u)), ("user_name", JVal.str n),
          ("is_typing", JVal.boolean t)] := by
  have hsubs : subsMembers
      { st with typing_users := (typingUpdate cid u t st.typing_users) } cid =
      subsMembers st cid := rfl
  refine ⟨_, handle_typing_eq tr st cid u n t, ?_, ?_, rfl⟩
  · intro v
    rw [hsubs, broadcastTargets_fst, count_filter_not_excl (some u) _ v h]
    have hiff : (v ∈ subsMembers st cid ∧ some v ≠ some u) ↔
        (v ∈ subsMembers st cid ∧ v ≠ u) := by
      simp
    simp only [hiff]
  · intro p hp
    rw [hsubs] at hp
    exact ((mem_broadcastTargets _ _ _ p).mp hp).2.2

theorem claim_C7_typing_broadcast_witness :
    ∃ att, handle_typing tr0 stC7 1 2 "Alice" true =
      .ok ({ stC7 with typing_users := (typingUpdate 1 2 true stC7.typing_users) },
        att) ∧
      (att.map Prod.fst).count 3 = 1 ∧ (att.map Prod.fst).count 2 = 0 := by
  obtain ⟨att, he, hc, _, _⟩ :=
    claim_C7_typing_broadcast tr0 stC7 1 2 "Alice" true (by decide)
  refine ⟨att, he, ?_, ?_⟩
  · rw [hc 3, if_pos (by decide)]
  · rw [hc 2, if_neg (by decide)]

/-! ## Claim C6 -/

/-- C6: over any finite sequence of `subscribe_to_conversation` /
`unsubscribe_from_conversation` calls on a fixed conversation and user,
final membership holds iff the last call was subscribe; each operation
is idempotent; and an unsubscribe that empties the member set removes
the conversation entry entirely. -/
theorem claim_C6_subscription_sequences (cid u : Nat) :
    (∀ (st : ManagerState) (ops : List SubOp), setsNodup st → ops ≠ [] →
      (u ∈ subsMembers (applySubOps cid u st ops) cid ↔
        ops.getLast? = some SubOp.sub)) ∧
    (∀ (st : ManagerState) (op : SubOp), setsNodup st →
      applySubOp cid u (applySubOp cid u st op) op = applySubOp cid u st op) ∧
    (∀ (st : ManagerState) (s : List Nat),
      dlookup cid st.conversation_subscriptions = some s → serase u s = [] →
      dlookup cid
        (unsubscribe_from_conversation cid u st).conversation_subscriptions = none) := by
  refine ⟨?_, fun st op h => applySubOp_idem cid u st op h,
    fun st s hs he => unsubscribe_prunes_empty cid u st s hs he⟩
  intro st ops h hne
  induction ops using List.reverseRecOn with
  | nil => exact absurd rfl hne
  | append_singleton ops op ih =>
    rw [applySubOps_append_one, List.getLast?_concat]
    cases op with
    | sub => simp [applySubOp, mem_subscribe_self]
    | unsub =>
      have hnd := (setsNodup_applySubOps cid u st ops h).1
      simp [applySubOp, mem_unsubscribe_self cid u _ hnd]

theorem claim_C6_subscription_sequences_witness :
    (2 ∈ subsMembers (applySubOps 1 2 initialManager [SubOp.sub]) 1) ∧
    applySubOp 1 2 (applySubOp 1 2 initialManager SubOp.sub) SubOp.sub =
      applySubOp 1 2 initialManager SubOp.sub ∧
    dlookup 1 (unsubscribe_from_conversation 1 2
      (ManagerState.mk [] [(1, [2])] [])).conversation_subscriptions = none := by
  obtain ⟨h1, h2, h3⟩ := claim_C6_subscription_sequences 1 2
  exact ⟨(h1 initialManager [SubOp.sub] (by decide) (by decide)).mpr (by decide),
    h2 initialManager SubOp.sub (by decide),
    h3 (ManagerState.mk [] [(1, [2])] []) [2] (by decide) (by decide)⟩

theorem claim_C9_second_connection_supersedes_witness :
    ∃ r1, connect tr0 1 5 initialManager = .ok r1 ∧
    ∃ r2, connect tr0 2 5 r1.1 = .ok r2 ∧
      dlookup 5 r2.1.active_connections = some 2 ∧
      send_to_user tr0 r2.1.active_connections 5 pongEvent = .ok [(2, pongEvent)] ∧
      ∀ att, send_to_user tr0 r2.1.active_connections 5 pongEvent = .ok att →
        (1, pongEvent) ∉ att :=
  claim_C9_second_connection_supersedes tr0 initialManager 5 1 2 pongEvent
    (by decide)

/-! ## Claim C1 -/

/-- C1 (failing input evaluated): `disconnect` for user 7 — sole
subscriber of conversation 0, co-subscriber of conversation 1, typing
in conversation 1 — deletes conversation 0's emptied entry while
iterating `conversation_subscriptions`, so CPython raises RuntimeError
at the next iterator step (the returned flag is true): user 7 is left
behind in conversation 1's subscription set and in the typing tracker,
whose cleanup loop never runs. -/
theorem claim_C1_disconnect_leaks :
    disconnect 7 stC1 =
      ({ active_connections := [],
         conversation_subscriptions := [(1, [7, 8])],
         typing_users := [(1, [7])] }, true) ∧
    7 ∈ subsMembers (disconnect 7 stC1).1 1 ∧
    7 ∈ tset 1 (disconnect 7 stC1).1.typing_users := by
  refine ⟨by rfl, by decide, by decide⟩

/-! ## Claim C3 -/

/-- C3 (code evaluated on the failing input): when authentication fails
the endpoint never sends the policy-violation (1008) close frame the
claim describes: reading `status.WS_1008_POLICY_VIOLATION` raises
UnboundLocalError because `status` is a function-local name (shadowed
by the presence branch's assignment at line 205); the generic handler's
1011 close fails the same way, and the endpoint crashes having created
no manager state, sent no close code and emitted no event. -/
theorem claim_C3_auth_failure_unbound_local (tr : Transport) (ws : Nat)
    (st : ManagerState) :
    endpointStart tr none ws st = .crashed st none .unboundLocal ∧
    ∀ code, endpointStart tr none ws st ≠ .rejected st code := by
  constructor
  · rfl
  · intro code h
    exact StartOutcome.noConfusion h

/-! ## Claim C2 -/

theorem readStatusAttr_never_ok (sl : Option String) (i : Nat) :
    ∃ e, readStatusAttr sl i = .error e := by
  cases sl with
  | none => exact ⟨.unboundLocal, rfl⟩
  | some s => exact ⟨.attrError, rfl⟩

/-- C2 counterexample: with user 5 connected and subscribed to
conversation 2, a frame that is not valid JSON is not a silent no-op:
`json.loads` raises, the generic exception handler runs `disconnect`
(mutating the shared registry and subscription index) and then itself
crashes reading the shadowed `status` local, so the receive loop never
continues. -/
theorem claim_C2_counterexample :
    processIncoming tr0 db0 5 "a" 1 locC2 .notJson =
      .crashed (EPLocals.mk (ManagerState.mk [] [(2, [7])] []) none) none
        .unboundLocal ∧
    processIncoming tr0 db0 5 "a" 1 locC2 .notJson ≠
      .continueLoop locC2 [] [] := by
  refine ⟨by rfl, by decide⟩

/-- C2 (amended): a recognized event (`subscribe`, `unsubscribe`,
`typing`) carrying a malformed conversation-id string is a silent
no-op — the ValueError from `UUID(...)` is caught inside the branch, no
state is mutated, nothing is sent and the loop continues; but a frame
that is not parseable as JSON raises an error that escapes the loop
body, so the session terminates (the user is disconnected) rather than
continuing. -/
theorem claim_C2_malformed_payload (tr : Transport) (db : DB) (u : Nat)
    (uname : String) (ws : Nat) (loc : EPLocals) (ev : String) (t : Bool)
    (ps : Option String)
    (hev : ev = "subscribe" ∨ ev = "unsubscribe" ∨ ev = "typing") :
    processIncoming tr db u uname ws loc (.obj (some ev) (some none) t ps) =
      .continueLoop loc [] [] ∧
    (∀ loc2 own bc, processIncoming tr db u uname ws loc .notJson ≠
      .continueLoop loc2 own bc) := by
  constructor
  · rcases hev with rfl | rfl | rfl <;> rfl
  · intro loc2 own bc hcontra
    have hstep : loopStep tr db u uname ws loc Incoming.notJson =
        (loc, [], [], some PyErr.jsonDecode) := rfl
    unfold processIncoming at hcontra
    rw [hstep] at hcontra
    by_cases hr : (disconnect u loc.mgr).2 = true
    · simp [hr] at hcontra
    · rcases hsl : loc.statusLocal with _ | sv
      · simp [hr, readStatusAttr, hsl] at hcontra
      · simp [hr, readStatusAttr, hsl] at hcontra

theorem claim_C2_malformed_payload_witness :
    processIncoming tr0 db0 5 "a" 1 locC2
      (.obj (some "subscribe") (some none) false none) =
      .continueLoop locC2 [] [] ∧
    processIncoming tr0 db0 5 "a" 1 locC2 .notJson ≠
      .continueLoop locC2 [] [] := by
  obtain ⟨h1, h2⟩ := claim_C2_malformed_payload tr0 db0 5 "a" 1 locC2
    "subscribe" false none (Or.inl rfl)
  exact ⟨h1, h2 locC2 [] []⟩

end TribeWS
